import Mathlib

/-!
Verification development for the n8n-workflows catalog engine.

The definitions below are shallow embeddings of the Python sources:
`workflow_db.py` (node analysis, description synthesis, SQLite store,
search), `generate_documentation.py` (step narrative, traversal, diagram)
and `api_server.py` (pagination, diagram endpoint). Python strings are
Lean `String`s, Python lists are Lean `List`s, Python dicts are
association lists in insertion order, and bounded loops are structural
recursions. Python `set` values are modelled as duplicate-free lists in
insertion order; only membership and cardinality of such lists are
relied upon except where an enumeration order is explicitly at issue.
-/

/-! ## String primitives mirroring the Python string operations used -/

/-- Decidable test that `pat` occurs as a contiguous subsequence of the
second list; this is Python's `pat in s` on strings, over `List Char`. -/
def seqHas {α : Type} [DecidableEq α] (pat : List α) : List α → Bool
  | [] => pat.isEmpty
  | l@(_ :: t) => pat.isPrefixOf l || seqHas pat t

/-- Python `sub in s` for strings. -/
def strContains (s sub : String) : Bool := seqHas sub.data s.data

/-- Python `s.lower()` (ASCII, which covers every string the sources build). -/
def pyLower (s : String) : String := String.mk (s.data.map Char.toLower)

/-- Python `s.startswith(p)`. -/
def pyStartsWith (s p : String) : Bool := p.data.isPrefixOf s.data

/-- Fuel-indexed worker for `pyReplace`; the fuel is the length of the
subject, enough because each step consumes at least one character. -/
def replaceAux (pat rep : List Char) : Nat → List Char → List Char
  | _, [] => []
  | 0, s => s
  | Nat.succ n, c :: rest =>
    if pat.isPrefixOf (c :: rest) && !pat.isEmpty then
      rep ++ replaceAux pat rep n ((c :: rest).drop pat.length)
    else
      c :: replaceAux pat rep n rest

/-- Python `s.replace(pat, rep)` (all occurrences, left to right). Every
call site in the sources passes a fixed non-empty `pat`. -/
def pyReplace (s pat rep : String) : String :=
  String.mk (replaceAux pat.data rep.data s.data.length s.data)

/-- Worker for `pyTitle`: the flag records whether the previous character
was alphabetic, i.e. whether we are inside a word. -/
def pyTitleAux : Bool → List Char → List Char
  | _, [] => []
  | prevAlpha, c :: rest =>
    (if c.isAlpha then (if prevAlpha then c.toLower else c.toUpper) else c) ::
      pyTitleAux c.isAlpha rest

/-- Python `s.title()`: uppercase the first character of each alphabetic
run, lowercase the rest. -/
def pyTitle (s : String) : String := String.mk (pyTitleAux false s.data)

/-- Split a character list at every occurrence of the delimiter, keeping
empty pieces: Python `s.split(d)` for a one-character separator. -/
def splitChar (d : Char) (s : List Char) : List (List Char) :=
  s.foldr
    (fun c acc =>
      if c = d then [] :: acc
      else
        match acc with
        | [] => [[c]]
        | h :: t => (c :: h) :: t)
    [[]]

/-! ## Workflow node model

Input document schema consumed by the analyzer (`api_server.py` /
`workflow_db.py` read `nodes` entries as dicts with `id`, `name`, `type`,
`parameters`, optional `notes`). Parameters are modelled as string-keyed
string values, the only shape the sources ever read from them. -/

structure WNode where
  id : String
  name : String
  type : String
  notes : Option String
  parameters : List (String × String)
deriving DecidableEq, Repr

/-- Python `parameters.get(key, default)`. -/
def paramGet (ps : List (String × String)) (key dflt : String) : String :=
  match ps.find? (fun p => p.1 == key) with
  | some p => p.2
  | none => dflt

/-- Shorthand for a node carrying only a name and a type, the shape used
throughout the trigger/integration analysis. -/
def mkNode (name type : String) : WNode :=
  { id := "", name := name, type := type, notes := none, parameters := [] }

/-! ## Service mapping table (`workflow_db.py`, `analyze_nodes`)

The `service_mappings` dict, in declaration order. `none` marks the
utility node kinds that are excluded from the integration set. -/

def serviceMappings : List (String × Option String) := [
  ("telegram", some "Telegram"),
  ("telegramTrigger", some "Telegram"),
  ("discord", some "Discord"),
  ("slack", some "Slack"),
  ("whatsapp", some "WhatsApp"),
  ("mattermost", some "Mattermost"),
  ("teams", some "Microsoft Teams"),
  ("rocketchat", some "Rocket.Chat"),
  ("gmail", some "Gmail"),
  ("mailjet", some "Mailjet"),
  ("emailreadimap", some "Email (IMAP)"),
  ("emailsendsmt", some "Email (SMTP)"),
  ("outlook", some "Outlook"),
  ("googledrive", some "Google Drive"),
  ("googledocs", some "Google Docs"),
  ("googlesheets", some "Google Sheets"),
  ("dropbox", some "Dropbox"),
  ("onedrive", some "OneDrive"),
  ("box", some "Box"),
  ("postgres", some "PostgreSQL"),
  ("mysql", some "MySQL"),
  ("mongodb", some "MongoDB"),
  ("redis", some "Redis"),
  ("airtable", some "Airtable"),
  ("notion", some "Notion"),
  ("jira", some "Jira"),
  ("github", some "GitHub"),
  ("gitlab", some "GitLab"),
  ("trello", some "Trello"),
  ("asana", some "Asana"),
  ("mondaycom", some "Monday.com"),
  ("openai", some "OpenAI"),
  ("anthropic", some "Anthropic"),
  ("huggingface", some "Hugging Face"),
  ("linkedin", some "LinkedIn"),
  ("twitter", some "Twitter/X"),
  ("facebook", some "Facebook"),
  ("instagram", some "Instagram"),
  ("shopify", some "Shopify"),
  ("stripe", some "Stripe"),
  ("paypal", some "PayPal"),
  ("googleanalytics", some "Google Analytics"),
  ("mixpanel", some "Mixpanel"),
  ("googlecalendar", some "Google Calendar"),
  ("googletasks", some "Google Tasks"),
  ("cal", some "Cal.com"),
  ("calendly", some "Calendly"),
  ("typeform", some "Typeform"),
  ("googleforms", some "Google Forms"),
  ("form", some "Form Trigger"),
  ("webhook", some "Webhook"),
  ("httpRequest", some "HTTP Request"),
  ("graphql", some "GraphQL"),
  ("sse", some "Server-Sent Events"),
  ("set", none),
  ("function", none),
  ("code", none),
  ("if", none),
  ("switch", none),
  ("merge", none),
  ("split", none),
  ("stickynote", none),
  ("stickyNote", none),
  ("wait", none),
  ("schedule", none),
  ("cron", none),
  ("manual", none),
  ("stopanderror", none),
  ("noop", none),
  ("noOp", none),
  ("error", none),
  ("limit", none),
  ("aggregate", none),
  ("summarize", none),
  ("filter", none),
  ("sort", none),
  ("removeDuplicates", none),
  ("dateTime", none),
  ("extractFromFile", none),
  ("convertToFile", none),
  ("readBinaryFile", none),
  ("readBinaryFiles", none),
  ("executionData", none),
  ("executeWorkflow", none),
  ("executeCommand", none),
  ("respondToWebhook", none)
]

/-- Python `service_mappings.get(k, fallback)`: keys are unique, so the
first association is the dict entry. -/
def mappingGetD (k : String) (fallback : Option String) : Option String :=
  match serviceMappings.find? (fun p => p.1 == k) with
  | some p => p.2
  | none => fallback

/-- Python truthiness of a mapping value (`None` and the empty string are
falsy). -/
def optTruthy : Option String → Bool
  | some v => v != ""
  | none => false

/-! ## Trigger and integration analysis (`workflow_db.py`, `analyze_nodes`) -/

/-- One step of the trigger-type scan: the body of the per-node
`if/elif` chain updating `trigger_type`. -/
def trigStep (t : String) (n : WNode) : String :=
  let nt := pyLower n.type
  let nn := pyLower n.name
  if strContains nt "webhook" || strContains nn "webhook" then "Webhook"
  else if strContains nt "cron" || strContains nt "schedule" then "Scheduled"
  else if strContains nt "trigger" && t == "Manual" then
    (if !(strContains nt "manual") then "Webhook" else t)
  else t

/-- The `for part in parts` scan of the custom-node branch: the first
dot-separated part mentioning youtube, telegram or discord decides. -/
def customServiceScan : List (List Char) → Option String
  | [] => none
  | p :: rest =>
    if seqHas "youtube".data p then some "YouTube"
    else if seqHas "telegram".data p then some "Telegram"
    else if seqHas "discord".data p then some "Discord"
    else customServiceScan rest

/-- Service candidate derived from the node's type identifier: the
`n8n-nodes-base.` branch, the `@n8n/` branch and the custom-node branch
of `analyze_nodes`. -/
def serviceFromType (n : WNode) : Option String :=
  if pyStartsWith n.type "n8n-nodes-base." then
    let raw := pyReplace (pyLower (pyReplace n.type "n8n-nodes-base." "")) "trigger" ""
    mappingGetD raw (if raw != "" then some (pyTitle raw) else none)
  else if pyStartsWith n.type "@n8n/" then
    let base :=
      if n.type.data.contains '.' then (splitChar '.' n.type.data).getLastD []
      else n.type.data
    let raw := pyReplace (pyLower (String.mk base)) "trigger" ""
    mappingGetD raw (if raw != "" then some (pyTitle raw) else none)
  else if strContains n.type "-" then
    customServiceScan (splitChar '.' (pyLower n.type).data)
  else none

/-- The node-name scan of `analyze_nodes`: the first table entry whose key
occurs in the lowercased node name and whose value is truthy wins (the
loop breaks at the first hit). -/
def nameServiceScan (nn : String) : Option String :=
  match serviceMappings.find? (fun p => strContains nn p.1 && optTruthy p.2) with
  | some p => p.2
  | none => none

/-- One step of the integration scan: service from the type identifier,
overridden by a name-scan hit, then added unless falsy or the literal
string None. The accumulator is the Python `set` as an insertion-ordered
duplicate-free list. -/
def intStep (ints : List String) (n : WNode) : List String :=
  let nn := pyLower n.name
  let svc :=
    match nameServiceScan nn with
    | some v => some v
    | none => serviceFromType n
  match svc with
  | some s =>
      if s != "" && s != "None" then
        (if ints.contains s then ints else ints ++ [s])
      else ints
  | none => ints

/-- The per-node body of the `analyze_nodes` loop, threading both the
trigger type and the integration set. -/
def analyzeStep (st : String × List String) (n : WNode) : String × List String :=
  (trigStep st.1 n, intStep st.2 n)

/-- `WorkflowDatabase.analyze_nodes`: left-to-right scan over all nodes,
then the Complex override on node count and integration variety. -/
def analyzeNodes (nodes : List WNode) : String × List String :=
  let r := nodes.foldl analyzeStep ("Manual", [])
  if nodes.length > 10 && r.2.length > 3 then ("Complex", r.2) else r

/-- Complexity tier from the node count (`analyze_workflow_file`, and
identically `_analyze_workflow_file` in `generate_documentation.py`). -/
def determineComplexity (n : Nat) : String :=
  if n ≤ 5 then "low" else if n ≤ 15 then "medium" else "high"

/-! ## Description synthesis (`workflow_db.py`, `generate_description`)

The Python function receives the integration `set`; the `ints` argument
here is one enumeration of that set, in the order `list(integrations)`
would produce it. -/

def generateDescription (name : String) (nodeCount : Nat) (trig : String)
    (ints : List String) : String :=
  let d0 :=
    if trig == "Webhook" then "Webhook-triggered automation that"
    else if trig == "Scheduled" then "Scheduled automation that"
    else if trig == "Complex" then "Complex multi-step automation that"
    else "Manual workflow that"
  let main := ints.take 3
  let d1 :=
    if ints.isEmpty then d0
    else
      match main with
      | [a] => d0 ++ " integrates with " ++ a
      | [a, b] => d0 ++ " connects " ++ a ++ " and " ++ b
      | _ => d0 ++ " orchestrates " ++ String.intercalate ", " main.dropLast
          ++ ", and " ++ main.getLastD ""
  let nl := pyLower name
  let d2 :=
    if strContains nl "create" then d1 ++ " to create new records"
    else if strContains nl "update" then d1 ++ " to update existing data"
    else if strContains nl "sync" then d1 ++ " to synchronize data"
    else if strContains nl "notification" || strContains nl "alert" then
      d1 ++ " for notifications and alerts"
    else if strContains nl "backup" then d1 ++ " for data backup operations"
    else if strContains nl "monitor" then d1 ++ " for monitoring and reporting"
    else d1 ++ " for data processing"
  let d3 := d2 ++ ". Uses " ++ toString nodeCount ++ " nodes"
  let d4 :=
    if ints.length > 3 then
      d3 ++ " and integrates with " ++ toString ints.length ++ " services"
    else d3
  d4 ++ "."

/-! ## Step narrative (`generate_documentation.py`) -/

structure WStep where
  name : String
  type : String
  note : String
  id : String
deriving DecidableEq, Repr

/-- Connections mapping in document order: source node name, then the
`main` output ports, each an ordered list of target node names (the
`node` field of each connection object). -/
abbrev Conns := List (String × List (List String))

/-- Python truthiness of the optional `notes` field. -/
def hasNote (n : WNode) : Bool :=
  match n.notes with
  | some s => s != ""
  | none => false

/-- The record built for a node carrying a note. -/
def noteStep (n : WNode) : WStep :=
  { name := n.name, type := n.type, note := n.notes.getD "", id := n.id }

/-- `_generate_step_description`: fixed type-to-sentence rule table. -/
def genStepDescription (n : WNode) : String :=
  let nt := pyLower n.type
  let cleanType :=
    pyReplace (pyReplace (pyReplace n.type "n8n-nodes-base." "") "Trigger" "") "trigger" ""
  if strContains nt "webhook" then "Receives incoming webhook requests to trigger the workflow"
  else if strContains nt "cron" || strContains nt "schedule" then
    "Runs on a scheduled basis to trigger the workflow automatically"
  else if strContains nt "manual" then "Manual trigger to start the workflow execution"
  else if strContains nt "http" || strContains n.type "httpRequest" then
    let url := paramGet n.parameters "url" ""
    let method := paramGet n.parameters "method" "GET"
    "Makes " ++ method ++ " HTTP request" ++ (if url != "" then " to " ++ url else "")
  else if strContains nt "set" then "Sets and transforms data values for use in subsequent steps"
  else if strContains nt "if" then "Evaluates conditions to determine workflow path"
  else if strContains nt "switch" then "Routes workflow execution based on multiple conditions"
  else if strContains nt "function" || strContains nt "code" then
    "Executes custom JavaScript code for data processing"
  else if strContains nt "merge" then "Combines data from multiple workflow branches"
  else if strContains nt "split" then "Splits data into multiple items for parallel processing"
  else if strContains nt "filter" then "Filters data based on specified conditions"
  else if strContains nt "gmail" then
    "Performs Gmail " ++ paramGet n.parameters "operation" "send" ++ " operation"
  else if strContains nt "slack" then "Sends message or performs action in Slack"
  else if strContains nt "discord" then "Sends message or performs action in Discord"
  else if strContains nt "telegram" then "Sends message or performs action in Telegram"
  else if strContains nt "airtable" then
    "Performs Airtable " ++ paramGet n.parameters "operation" "create" ++ " operation on records"
  else if strContains nt "google" then
    if strContains nt "sheets" then "Reads from or writes to Google Sheets"
    else if strContains nt "drive" then "Manages files in Google Drive"
    else if strContains nt "calendar" then "Manages Google Calendar events"
    else "Integrates with Google " ++ cleanType ++ " service"
  else if strContains nt "microsoft" then
    if strContains nt "outlook" then "Manages Microsoft Outlook emails"
    else if strContains nt "excel" then "Works with Microsoft Excel files"
    else "Integrates with Microsoft " ++ cleanType ++ " service"
  else if strContains nt "openai" then "Processes data using OpenAI AI models"
  else if strContains nt "anthropic" then "Processes data using Anthropic Claude AI"
  else if strContains nt "database" || strContains nt "mysql" || strContains nt "postgres" then
    "Executes database operations"
  else if strContains nt "wait" then "Pauses workflow execution for specified duration"
  else if strContains nt "error" then "Handles errors and stops workflow execution"
  else "Integrates with " ++ pyTitle cleanType ++ " to process data"

/-- Trigger-suggesting type test used by `_find_start_node`. -/
def isTriggerish (n : WNode) : Bool :=
  ["trigger", "webhook", "cron", "schedule", "manual"].any
    (fun k => strContains (pyLower n.type) k)

/-- All target node names appearing in any `main` output slot. -/
def connTargets (conns : Conns) : List String :=
  conns.flatMap (fun p => p.2.flatMap (fun slot => slot))

/-- `_find_start_node`: first trigger-suggesting node, else first node
never appearing as a connection target, else the first node. -/
def findStartNode (nodes : List WNode) (conns : Conns) : Option WNode :=
  match nodes.find? isTriggerish with
  | some n => some n
  | none =>
    match nodes.find? (fun n => !((connTargets conns).contains n.name)) with
    | some n => some n
    | none => nodes.head?

/-- In-place replace-or-append keyed by node id: building the Python dict
`{node.id: node}` keeps the first insertion position of a key and the
last value stored under it. -/
def upsertById (acc : List WNode) (n : WNode) : List WNode :=
  if acc.any (fun m => m.id == n.id) then
    acc.map (fun m => if m.id == n.id then n else m)
  else acc ++ [n]

/-- `node_map.values()` in iteration order. -/
def nodeMapValues (nodes : List WNode) : List WNode := nodes.foldl upsertById []

/-- The successors of a node in `_traverse_workflow`: the targets of its
`main` connections, each resolved to the first map value with that name. -/
def nextNodes (nodes : List WNode) (conns : Conns) (name : String) : List WNode :=
  match conns.find? (fun p => p.1 == name) with
  | none => []
  | some p =>
      (p.2.flatMap (fun slot => slot)).filterMap
        (fun t => (nodeMapValues nodes).find? (fun m => m.name == t))

/-- Fuel-indexed embedding of the recursive `_traverse_workflow`: the
Python recursion has no fuel; the fuel only caps the recursion depth so
that the definition is structural, and the termination theorem shows the
result is fuel-independent once the fuel exceeds the number of distinct
node ids. The accumulator pairs the emitted steps with the visited-id
set (in visit order). -/
def traverseAux (nodes : List WNode) (conns : Conns) :
    Nat → WNode → List WStep × List String → List WStep × List String
  | 0, _, acc => acc
  | Nat.succ fuel, cur, (steps, visited) =>
    if visited.contains cur.id then (steps, visited)
    else
      let d := genStepDescription cur
      let steps2 :=
        if d != "" then
          steps ++ [{ name := cur.name, type := cur.type, note := d, id := cur.id }]
        else steps
      (nextNodes nodes conns cur.name).foldl
        (fun acc2 nx => traverseAux nodes conns fuel nx acc2)
        (steps2, visited ++ [cur.id])

/-- Fuel sufficient for any traversal of these nodes: one more than the
number of distinct node ids. -/
def fuelOf (nodes : List WNode) : Nat := (nodeMapValues nodes).length + 1

/-- `_generate_basic_steps`. -/
def generateBasicSteps (nodes : List WNode) : List WStep :=
  nodes.filterMap (fun n =>
    let d := genStepDescription n
    if d != "" then some { name := n.name, type := n.type, note := d, id := n.id }
    else none)

/-- `_generate_steps_from_structure`. -/
def generateStepsFromStructure (nodes : List WNode) (conns : Conns) : List WStep :=
  if nodes.isEmpty then []
  else
    match findStartNode nodes conns with
    | none => generateBasicSteps nodes
    | some start => (traverseAux nodes conns (fuelOf nodes) start ([], [])).1

/-- `_extract_or_generate_steps`: note-bearing nodes short-circuit the
structural generation. -/
def extractOrGenerateSteps (nodes : List WNode) (conns : Conns) : List WStep :=
  let withNotes := (nodes.filter hasNote).map noteStep
  if withNotes.isEmpty then generateStepsFromStructure nodes conns else withNotes

/-! ## Flow diagram rendering (`api_server.py`, `generate_mermaid_diagram`;
identical code in `generate_documentation.py`, `_generate_workflow_diagram`) -/

/-- The double-quote character, kept out of string literals so that the
escaping performed by the renderer stays readable. -/
def quoteStr : String := String.mk [Char.ofNat 34]

/-- The single-quote character used as the replacement for double quotes. -/
def aposStr : String := String.mk [Char.ofNat 39]

/-- In-place replace-or-append for a string-keyed association list: one
assignment `d[k] = v` on a Python dict (first insertion keeps the
position, the value is overwritten). -/
def upsertAssoc (acc : List (String × String)) (kv : String × String) :
    List (String × String) :=
  if acc.any (fun q => q.1 == kv.1) then
    acc.map (fun q => if q.1 == kv.1 then kv else q)
  else acc ++ [kv]

/-- The `mermaid_ids` dict: node name mapped to `node{i}` for position
`i`, built over the node array in order. -/
def mermaidIdAssoc (nodes : List WNode) : List (String × String) :=
  nodes.enum.foldl
    (fun acc p => upsertAssoc acc (p.2.name, "node" ++ toString p.1)) []

/-- Lookup in `mermaid_ids`. -/
def idOf (nodes : List WNode) (name : String) : Option String :=
  ((mermaidIdAssoc nodes).find? (fun q => q.1 == name)).map (fun q => q.2)

/-- The two statements emitted per node: the labelled node statement and
its style statement. -/
def nodeBlock (nodes : List WNode) (n : WNode) : List String :=
  let nid := (idOf nodes n.name).getD ""
  let ntype := pyReplace n.type "n8n-nodes-base." ""
  let tl := pyLower ntype
  let style :=
    if strContains tl "trigger" || strContains tl "webhook" || strContains tl "cron" then
      "fill:#b3e0ff,stroke:#0066cc"
    else if strContains tl "if" || strContains tl "switch" then
      "fill:#ffffb3,stroke:#e6e600"
    else if strContains tl "function" || strContains tl "code" then
      "fill:#d9b3ff,stroke:#6600cc"
    else if strContains tl "error" then "fill:#ffb3b3,stroke:#cc0000"
    else "fill:#d9d9d9,stroke:#666666"
  let label :=
    pyReplace n.name quoteStr aposStr ++ "<br>(" ++ pyReplace ntype quoteStr aposStr ++ ")"
  ["  " ++ nid ++ "[" ++ quoteStr ++ label ++ quoteStr ++ "]",
   "  style " ++ nid ++ " " ++ style]

/-- One declared `main` connection, flattened: source name, output-port
index, number of output ports of the source, target name. -/
structure ConnEntry where
  src : String
  port : Nat
  ports : Nat
  tgt : String
deriving DecidableEq, Repr

/-- Every connection declared in the mapping, in declaration order. -/
def connEntries (conns : Conns) : List ConnEntry :=
  conns.flatMap (fun p =>
    p.2.enum.flatMap (fun q =>
      q.2.map (fun t => { src := p.1, port := q.1, ports := p.2.length, tgt := t })))

/-- A connection is resolvable when both endpoint names are rendered. -/
def resolvable (nodes : List WNode) (e : ConnEntry) : Bool :=
  (idOf nodes e.src).isSome && (idOf nodes e.tgt).isSome

/-- The edge statement for a resolvable connection: labelled with the
output-port index only when the source has more than one output port. -/
def edgeStmt (nodes : List WNode) (e : ConnEntry) : String :=
  "  " ++ (idOf nodes e.src).getD "" ++
    (if e.ports > 1 then " -->|" ++ toString e.port ++ "| " else " --> ") ++
    (idOf nodes e.tgt).getD ""

/-- The connection loop of the renderer, as written: skip unknown
sources, then emit one edge per known target. -/
def edgeLinesSrc (nodes : List WNode) (conns : Conns) : List String :=
  conns.flatMap (fun p =>
    if (idOf nodes p.1).isSome then
      p.2.enum.flatMap (fun q =>
        q.2.flatMap (fun t =>
          if (idOf nodes t).isSome then
            ["  " ++ (idOf nodes p.1).getD "" ++
              (if p.2.length > 1 then " -->|" ++ toString q.1 ++ "| " else " --> ") ++
              (idOf nodes t).getD ""]
          else []))
    else [])

/-- The `mermaid_code` list: header, then the node loop, then the
connection loop. -/
def mermaidLines (nodes : List WNode) (conns : Conns) : List String :=
  "graph TD" :: nodes.flatMap (nodeBlock nodes) ++ edgeLinesSrc nodes conns

/-- `generate_mermaid_diagram`: the joined diagram text, with the
placeholder for an empty node list. -/
def generateMermaidDiagram (nodes : List WNode) (conns : Conns) : String :=
  if nodes.isEmpty then "graph TD\n  EmptyWorkflow[No nodes found in workflow]"
  else String.intercalate "\n" (mermaidLines nodes conns)

/-! ## Search and pagination (`workflow_db.py`, `search_workflows`;
`api_server.py`, `search_workflows` endpoint)

The SQL query is modelled over a list of rows carrying the columns the
WHERE/ORDER BY clauses consume (the remaining selected columns ride
along unchanged in the real rows and cannot affect candidacy, ordering
or pagination). The FTS5 `MATCH` predicate and its `rank` are SQLite
internals, abstracted as parameters; the claims quantify over them. -/

structure SRow where
  rid : Nat
  filename : String
  name : String
  active : Bool
  triggerType : String
  complexity : String
  analyzedAt : Nat
deriving DecidableEq, Repr

/-- The conjunctive WHERE filters built from `active_only`,
`trigger_filter` and `complexity_filter`. -/
def filtersPass (activeOnly : Bool) (trigF compF : String) (r : SRow) : Bool :=
  (!activeOnly || r.active) && (trigF == "all" || r.triggerType == trigF) &&
    (compF == "all" || r.complexity == compF)

/-- The filtered candidate set of the search, before ordering and
pagination: the FTS join restricts to matching rows when a query is
present, then the filters apply. -/
def candidatesOf (rows : List SRow) (useQuery : Bool) (matchQ : SRow → Bool)
    (trigF compF : String) (activeOnly : Bool) : List SRow :=
  (if useQuery then rows.filter matchQ else rows).filter (filtersPass activeOnly trigF compF)

/-- Ordered insertion, the workhorse of the sort modelling ORDER BY. -/
def insertOrd {α : Type} (le : α → α → Bool) (x : α) : List α → List α
  | [] => [x]
  | y :: ys => if le y x then y :: insertOrd le x ys else x :: y :: ys

/-- Insertion sort; ORDER BY returns some ordering of the candidate
rows, and every claim proved below depends only on it being a
permutation. -/
def sortOrd {α : Type} (le : α → α → Bool) : List α → List α
  | [] => []
  | x :: xs => insertOrd le x (sortOrd le xs)

/-- `search_workflows`: candidates, COUNT(*) of the unpaginated set,
then ORDER BY (rank for a query, analyzed_at descending otherwise) and
LIMIT/OFFSET. -/
def searchWorkflows (rows : List SRow) (useQuery : Bool) (matchQ : SRow → Bool)
    (rank : SRow → Int) (trigF compF : String) (activeOnly : Bool)
    (limit offset : Nat) : List SRow × Nat :=
  let cands := candidatesOf rows useQuery matchQ trigF compF activeOnly
  let total := cands.length
  let ordered :=
    if useQuery then sortOrd (fun a b => decide (rank a ≤ rank b)) cands
    else sortOrd (fun a b => decide (b.analyzedAt ≤ a.analyzedAt)) cands
  ((ordered.drop offset).take limit, total)

/-- Page count computed at the API boundary (`api_server.py`):
`(total + per_page - 1) // per_page`. -/
def pagesOf (total perPage : Nat) : Nat := (total + perPage - 1) / perPage

/-! ## Index store (`workflow_db.py`, `init_database` and
`index_all_workflows`)

State of the `workflows` table with its FTS5 companion. `dbUpsert` is the
`INSERT OR REPLACE` of `index_all_workflows` together with the sync
triggers installed by `init_database`: SQLite resolves the
UNIQUE(filename) conflict by deleting the old row, and with
`recursive_triggers` at its default (off; `init_database` never enables
it) the AFTER DELETE trigger does not fire for that removal, while the
AFTER INSERT trigger fires for the new row, whose id is a fresh
AUTOINCREMENT value (never reused). -/

structure WRecord where
  filename : String
  name : String
  workflowId : String
  active : Bool
  description : String
  triggerType : String
  complexity : String
  nodeCount : Nat
  integrations : String
  tags : String
  createdAt : String
  updatedAt : String
  fileHash : String
  fileSize : Nat
deriving DecidableEq, Repr

structure DbRow where
  id : Nat
  payload : WRecord
  analyzedAt : Nat
deriving DecidableEq, Repr

/-- The FTS entry the insert trigger derives from a row: the searchable
columns, keyed by the row's id. -/
structure FtsEntry where
  rowid : Nat
  filename : String
  name : String
  description : String
  integrations : String
  tags : String
deriving DecidableEq, Repr

def entryOf (r : DbRow) : FtsEntry :=
  { rowid := r.id, filename := r.payload.filename, name := r.payload.name,
    description := r.payload.description, integrations := r.payload.integrations,
    tags := r.payload.tags }

structure DbState where
  nextId : Nat
  workflows : List DbRow
  fts : List FtsEntry
deriving DecidableEq, Repr

def dbInit : DbState := { nextId := 1, workflows := [], fts := [] }

def dbUpsert (st : DbState) (w : WRecord) (time : Nat) : DbState :=
  let newRow : DbRow := { id := st.nextId, payload := w, analyzedAt := time }
  { nextId := st.nextId + 1,
    workflows := st.workflows.filter (fun r => r.payload.filename != w.filename) ++ [newRow],
    fts := st.fts ++ [entryOf newRow] }

/-- A full indexing history: the store only ever grows by upserts
(`index_all_workflows` performs no deletes). -/
def applyUpserts (ws : List (WRecord × Nat)) : DbState :=
  ws.foldl (fun st p => dbUpsert st p.1 p.2) dbInit

/-- The FTS search path of `search_workflows`: rows of `workflows_fts`
matching the query, joined to `workflows` on `w.id = fts.rowid`. -/
def ftsQueryJoin (st : DbState) (q : FtsEntry → Bool) : List DbRow :=
  (st.fts.filter q).filterMap (fun e => st.workflows.find? (fun w => w.id == e.rowid))

/-- The three-node example of the claim, with the bare type identifiers
it names. -/
def exampleNodes : List WNode :=
  [mkNode "" "webhookTrigger", mkNode "" "httpRequest", mkNode "" "set"]

/-- The same example with the namespaced forms the corpus actually uses. -/
def exampleNodesNs : List WNode :=
  [mkNode "" "n8n-nodes-base.webhookTrigger",
   mkNode "" "n8n-nodes-base.httpRequest",
   mkNode "" "n8n-nodes-base.set"]

/-- Node whose display name mentions two mapped services. -/
def twoServiceNode : WNode := mkNode "telegram discord" ""

/-- A note-bearing node for the witness. -/
def notedNode : WNode :=
  { id := "1", name := "Fetch", type := "n8n-nodes-base.httpRequest",
    notes := some "calls the API", parameters := [] }

/-! ## Trigger classification: order dependence (C1) -/

/-- A cron-typed node. -/
def cronNode : WNode := mkNode "Every Morning" "n8n-nodes-base.cron"

/-- A webhook-typed node. -/
def webhookNode : WNode := mkNode "Incoming Hook" "n8n-nodes-base.webhook"

/-- The webhook rule of the per-node scan: type or display name mentions
webhook. -/
def matchesWebhookRule (n : WNode) : Bool :=
  strContains (pyLower n.type) "webhook" || strContains (pyLower n.name) "webhook"

/-- The schedule rule of the per-node scan: type mentions cron or
schedule. -/
def matchesScheduleRule (n : WNode) : Bool :=
  strContains (pyLower n.type) "cron" || strContains (pyLower n.type) "schedule"

/-- The residual trigger rule: type mentions trigger but not manual. -/
def matchesOtherTriggerRule (n : WNode) : Bool :=
  strContains (pyLower n.type) "trigger" && !(strContains (pyLower n.type) "manual")

/-- The classification the left-to-right scan actually computes: the
last node matching the webhook or schedule rule decides (webhook checked
first on that node); with no such node, any node matching the residual
trigger rule yields Webhook, else Manual. -/
def lastMatchTrigger (nodes : List WNode) : String :=
  match nodes.reverse.find? (fun n => matchesWebhookRule n || matchesScheduleRule n) with
  | some n => if matchesWebhookRule n then "Webhook" else "Scheduled"
  | none => if nodes.any matchesOtherTriggerRule then "Webhook" else "Manual"

/-- Two concrete indexed rows for the search witness. -/
def searchRowA : SRow :=
  { rid := 1, filename := "a.json", name := "A", active := true,
    triggerType := "Manual", complexity := "low", analyzedAt := 10 }

/-- Second concrete row. -/
def searchRowB : SRow :=
  { rid := 2, filename := "b.json", name := "B", active := false,
    triggerType := "Webhook", complexity := "medium", analyzedAt := 20 }

/-! ## Index store invariants (C2) -/

/-- The store invariant maintained by the indexing pass: ids and
filenames are unique, all ids and rowids are below the AUTOINCREMENT
counter, and every live row has exactly one FTS entry — the one carrying
its current fields. -/
def dbInv (st : DbState) : Prop :=
  (∀ w ∈ st.workflows, w.id < st.nextId) ∧
  (st.workflows.map DbRow.id).Nodup ∧
  (st.workflows.map (fun w => w.payload.filename)).Nodup ∧
  (∀ e ∈ st.fts, e.rowid < st.nextId) ∧
  (∀ w ∈ st.workflows, st.fts.filter (fun e => e.rowid == w.id) = [entryOf w])

/-- A record used twice with different descriptions, modelling one file
re-indexed after a change. -/
def sampleRecord (desc : String) : WRecord :=
  { filename := "a.json", name := "Sample A", workflowId := "w1", active := true,
    description := desc, triggerType := "Manual", complexity := "low", nodeCount := 2,
    integrations := "[]", tags := "[]", createdAt := "", updatedAt := "",
    fileHash := "h", fileSize := 10 }

/-! ## Traversal termination and deduplication (C9) -/

/-- The step record emitted for a visited node. -/
def stepOf (cur : WNode) : WStep :=
  { name := cur.name, type := cur.type, note := genStepDescription cur, id := cur.id }

/-- The steps accumulator after visiting a node (the description is
always appended when non-empty, mirroring the truthiness guard). -/
def pushStep (steps : List WStep) (cur : WNode) : List WStep :=
  if genStepDescription cur != "" then steps ++ [stepOf cur] else steps

/-- The termination measure: node-map ids not yet visited. -/
def unvisitedCount (nodes : List WNode) (visited : List String) : Nat :=
  (((nodeMapValues nodes).map (fun m => m.id)).filter
    (fun i => decide (i ∉ visited))).length

/-- First node of the cyclic witness graph. -/
def cycleNodeA : WNode :=
  { id := "a", name := "A", type := "", notes := none, parameters := [] }

/-- Second node of the cyclic witness graph. -/
def cycleNodeB : WNode :=
  { id := "b", name := "B", type := "", notes := none, parameters := [] }

/-- A two-node cycle. -/
def cycleConns : Conns := [("A", [["B"]]), ("B", [["A"]])]

/-! ## Theorems -/

/-- C4: for every node count n the derived complexity tier is low iff
n ≤ 5, medium iff 6 ≤ n ≤ 15 and high iff n ≥ 16 — exact boundaries,
inclusive on the low end. -/
theorem complexity_thresholds (n : Nat) :
    (determineComplexity n = "low" ↔ n ≤ 5) ∧
    (determineComplexity n = "medium" ↔ 6 ≤ n ∧ n ≤ 15) ∧
    (determineComplexity n = "high" ↔ 16 ≤ n) := by
  have hlm : ("low" : String) ≠ "medium" := by decide
  have hlh : ("low" : String) ≠ "high" := by decide
  have hml : ("medium" : String) ≠ "low" := by decide
  have hmh : ("medium" : String) ≠ "high" := by decide
  have hhl : ("high" : String) ≠ "low" := by decide
  have hhm : ("high" : String) ≠ "medium" := by decide
  unfold determineComplexity
  split_ifs with ha hb
  · refine ⟨by simp [ha], ?_, ?_⟩
    · simp only [hlm, false_iff]; omega
    · simp only [hlh, false_iff]; omega
  · refine ⟨?_, ?_, ?_⟩
    · simp only [hml, false_iff]; omega
    · simp only [true_iff]; omega
    · simp only [hmh, false_iff]; omega
  · refine ⟨?_, ?_, ?_⟩
    · simp only [hhl, false_iff]; omega
    · simp only [hhm, false_iff]; omega
    · simp only [true_iff]; omega

/-- C3 counterexample: the claimed integration set {"HTTP"} is wrong —
analysis of the three-node example never yields the integration "HTTP",
neither for the bare type identifiers written in the claim nor for their
namespaced forms. -/
theorem example_workflow_counterexample :
    "HTTP" ∉ (analyzeNodes exampleNodes).2 ∧
    "HTTP" ∉ (analyzeNodes exampleNodesNs).2 := by decide

/-- C3 as amended: the example yields nodeCount 3, complexity low and
trigger Webhook, but its integration set is empty for the bare type
identifiers (type-based extraction only fires for namespaced
identifiers), and is exactly {Webhook, Httprequest} for the namespaced
forms (the webhook node is mapped, not elided; httpRequest misses the
camel-case table key and falls back to title-casing). The lists are the
model's canonical enumerations of the derived sets. -/
theorem example_workflow_analysis :
    exampleNodes.length = 3 ∧
    determineComplexity exampleNodes.length = "low" ∧
    (analyzeNodes exampleNodes).1 = "Webhook" ∧
    (analyzeNodes exampleNodes).2 = [] ∧
    (analyzeNodes exampleNodesNs).1 = "Webhook" ∧
    (analyzeNodes exampleNodesNs).2 = ["Webhook", "Httprequest"] := by decide

/-- C8 counterexample: two enumerations of the same two-element
integration set produce different description strings, so the
description is not a function of the integration set alone. -/
theorem description_order_counterexample :
    (["Airtable", "Box"] : List String).Perm ["Box", "Airtable"] ∧
    generateDescription "Sample" 5 "Manual" ["Airtable", "Box"] ≠
      generateDescription "Sample" 5 "Manual" ["Box", "Airtable"] := by decide

/-- C8 as amended: the description is a deterministic pure function of
(name, trigger type, the enumeration order of the integration set, node
count); enumeration order leaks into the string as soon as the set has
two elements, and set-level determinism holds when the set has at most
one element. -/
theorem description_order_small_sets (name : String) (nc : Nat) (trig : String)
    (a b : List String) (hperm : a.Perm b) (hlen : a.length ≤ 1) :
    generateDescription name nc trig a = generateDescription name nc trig b := by
  cases a with
  | nil =>
      have hb : b = [] := hperm.symm.eq_nil
      rw [hb]
  | cons x xs =>
      cases xs with
      | nil =>
          have hb : b = [x] := by
            have hl : b.length = 1 := by
              have := hperm.length_eq
              simpa using this.symm
            cases b with
            | nil => simp at hl
            | cons y ys =>
                cases ys with
                | nil =>
                    have hx : x ∈ [y] := hperm.mem_iff.mp (by simp)
                    simp at hx
                    simp [hx]
                | cons z zs => simp at hl
          rw [hb]
      | cons y ys => simp at hlen

/-- Witness for `description_order_small_sets` at a concrete
one-element set. -/
theorem description_order_small_sets_witness :
    generateDescription "Sync Orders" 4 "Webhook" ["Stripe"] =
      generateDescription "Sync Orders" 4 "Webhook" ["Stripe"] :=
  description_order_small_sets "Sync Orders" 4 "Webhook" ["Stripe"] ["Stripe"]
    (by decide) (by decide)

/-- C10 counterexample: the lowercased display name contains the key
discord, whose mapped value Discord is non-null, yet Discord is not
added — only the first matching key in table order (telegram)
contributes. -/
theorem name_scan_counterexample :
    ("discord", some "Discord") ∈ serviceMappings ∧
    strContains (pyLower twoServiceNode.name) "discord" = true ∧
    "Discord" ∉ (analyzeNodes [twoServiceNode]).2 ∧
    (analyzeNodes [twoServiceNode]).2 = ["Telegram"] := by decide

/-- C6: when at least one node carries a non-empty attached note, the
step narrative is exactly the note-bearing nodes in document order, each
as (name, type, note), and the connections mapping has no influence on
the result. -/
theorem notes_short_circuit (nodes : List WNode) (conns : Conns)
    (h : ∃ n ∈ nodes, hasNote n = true) :
    extractOrGenerateSteps nodes conns = (nodes.filter hasNote).map noteStep ∧
    (∀ conns2 : Conns, extractOrGenerateSteps nodes conns2 =
      extractOrGenerateSteps nodes conns) := by
  obtain ⟨n, hn, hnote⟩ := h
  have hmem : n ∈ nodes.filter hasNote := List.mem_filter.mpr ⟨hn, hnote⟩
  have hne : ((nodes.filter hasNote).map noteStep).isEmpty = false := by
    have hm : noteStep n ∈ (nodes.filter hasNote).map noteStep :=
      List.mem_map_of_mem _ hmem
    cases hempty : (nodes.filter hasNote).map noteStep with
    | nil => rw [hempty] at hm; cases hm
    | cons a l => rfl
  have key : extractOrGenerateSteps nodes conns = (nodes.filter hasNote).map noteStep := by
    simp [extractOrGenerateSteps, hne]
  refine ⟨key, fun conns2 => ?_⟩
  have key2 : extractOrGenerateSteps nodes conns2 = (nodes.filter hasNote).map noteStep := by
    simp [extractOrGenerateSteps, hne]
  rw [key, key2]

/-- Witness for `notes_short_circuit` on a concrete noted node, with a
connections mapping that would otherwise influence traversal. -/
theorem notes_short_circuit_witness :
    extractOrGenerateSteps [notedNode] [("Fetch", [["Missing"]])] = [noteStep notedNode] ∧
    extractOrGenerateSteps [notedNode] [] =
      extractOrGenerateSteps [notedNode] [("Fetch", [["Missing"]])] := by
  have h := notes_short_circuit [notedNode] [("Fetch", [["Missing"]])]
    ⟨notedNode, by decide, by decide⟩
  refine ⟨?_, h.2 []⟩
  rw [h.1]; decide

/-- C1 counterexample: the same multiset of nodes classifies as Webhook
in one document order and Scheduled in the other, so the classification
is neither the fixed-priority aggregate (which would give Scheduled both
times) nor order-independent. -/
theorem trigger_order_counterexample :
    (analyzeNodes [cronNode, webhookNode]).1 = "Webhook" ∧
    (analyzeNodes [webhookNode, cronNode]).1 = "Scheduled" := by decide

/-- The per-node trigger update, rephrased through the three rules. -/
theorem trigStep_eq (t : String) (n : WNode) :
    trigStep t n =
      if matchesWebhookRule n then "Webhook"
      else if matchesScheduleRule n then "Scheduled"
      else if matchesOtherTriggerRule n && t == "Manual" then "Webhook"
      else t := by
  simp only [trigStep, matchesWebhookRule, matchesScheduleRule, matchesOtherTriggerRule]
  split_ifs <;> simp_all

/-- The trigger component of the analysis fold ignores the integration
component. -/
theorem foldl_analyzeStep_fst (l : List WNode) : ∀ (t : String) (ints : List String),
    (l.foldl analyzeStep (t, ints)).1 = l.foldl trigStep t := by
  induction l with
  | nil => intro t ints; rfl
  | cons x xs ih => intro t ints; exact ih (trigStep t x) (intStep ints x)

/-- The integration component of the analysis fold ignores the trigger
component. -/
theorem foldl_analyzeStep_snd (l : List WNode) : ∀ (t : String) (ints : List String),
    (l.foldl analyzeStep (t, ints)).2 = l.foldl intStep ints := by
  induction l with
  | nil => intro t ints; rfl
  | cons x xs ih => intro t ints; exact ih (trigStep t x) (intStep ints x)

/-- The left-to-right trigger scan computes exactly the last-match
classification. -/
theorem foldl_trigStep_char (nodes : List WNode) :
    nodes.foldl trigStep "Manual" = lastMatchTrigger nodes := by
  induction nodes using List.reverseRecOn with
  | nil => rfl
  | append_singleton l x ih =>
    rw [List.foldl_append, List.foldl_cons, List.foldl_nil, ih]
    unfold lastMatchTrigger
    have hrev : (l ++ [x]).reverse = x :: l.reverse := by simp
    rw [hrev]
    cases hx : (matchesWebhookRule x || matchesScheduleRule x) with
    | true =>
        have hfind : List.find? (fun n => matchesWebhookRule n || matchesScheduleRule n)
            (x :: l.reverse) = some x := List.find?_cons_of_pos _ (by simpa using hx)
        rw [hfind]
        cases hw : matchesWebhookRule x with
        | true => simp [trigStep_eq, hw]
        | false =>
            have hs : matchesScheduleRule x = true := by
              cases hsx : matchesScheduleRule x with
              | true => rfl
              | false => rw [hw, hsx] at hx; cases hx
            simp [trigStep_eq, hw, hs]
    | false =>
        rw [List.find?_cons_of_neg _ (by simp [hx])]
        have hws := Bool.or_eq_false_iff.mp hx
        have hWM : ("Webhook" : String) ≠ "Manual" := by decide
        have hSM : ("Scheduled" : String) ≠ "Manual" := by decide
        cases hf : l.reverse.find? (fun n => matchesWebhookRule n || matchesScheduleRule n) with
        | some m =>
            rw [trigStep_eq]
            cases hwm : matchesWebhookRule m <;> simp [hwm, hws.1, hws.2, hWM, hSM]
        | none =>
            rw [trigStep_eq]
            cases ha : l.any matchesOtherTriggerRule with
            | true => simp [hws.1, hws.2, hWM, ha]
            | false =>
                cases ho : matchesOtherTriggerRule x <;> simp [hws.1, hws.2, ha, ho]

/-- The Complex override written as a propositional conditional. -/
theorem analyzeNodes_eq (nodes : List WNode) :
    analyzeNodes nodes =
      (if 10 < nodes.length ∧ 3 < (nodes.foldl analyzeStep ("Manual", [])).2.length
       then ("Complex", (nodes.foldl analyzeStep ("Manual", [])).2)
       else nodes.foldl analyzeStep ("Manual", [])) := by
  simp only [analyzeNodes]
  by_cases h : 10 < nodes.length ∧ 3 < (nodes.foldl analyzeStep ("Manual", [])).2.length
  · rw [if_pos h]; simp [h.1, h.2]
  · rw [if_neg h]
    have hb : (decide (10 < nodes.length) &&
        decide (3 < (nodes.foldl analyzeStep ("Manual", [])).2.length)) = false := by
      have : (decide (10 < nodes.length) &&
          decide (3 < (nodes.foldl analyzeStep ("Manual", [])).2.length)) =
          decide (10 < nodes.length ∧
            3 < (nodes.foldl analyzeStep ("Manual", [])).2.length) := by simp
      rw [this, decide_eq_false h]
    simp [hb]

/-- The override never changes the integration set. -/
theorem analyzeNodes_snd (nodes : List WNode) :
    (analyzeNodes nodes).2 = nodes.foldl intStep [] := by
  rw [analyzeNodes_eq]
  split_ifs <;> exact foldl_analyzeStep_snd nodes "Manual" []

/-- C1 as amended: the classification is not a fixed-priority aggregate
but the result of a left-to-right last-match scan — the last node
matching the webhook or schedule rule decides (so the result is
order-dependent), with Webhook-by-residual-trigger and Manual as
fallbacks — except that the classification is Complex exactly when node
count exceeds 10 and the integration set has more than 3 elements. -/
theorem trigger_scan_characterization (nodes : List WNode) :
    ((analyzeNodes nodes).1 = "Complex" ↔
      10 < nodes.length ∧ 3 < (analyzeNodes nodes).2.length) ∧
    (¬(10 < nodes.length ∧ 3 < (analyzeNodes nodes).2.length) →
      (analyzeNodes nodes).1 = lastMatchTrigger nodes) := by
  have hchar : (nodes.foldl analyzeStep ("Manual", [])).1 = lastMatchTrigger nodes := by
    rw [foldl_analyzeStep_fst]; exact foldl_trigStep_char nodes
  have hrange : lastMatchTrigger nodes ≠ "Complex" := by
    unfold lastMatchTrigger
    cases hf : nodes.reverse.find? (fun n => matchesWebhookRule n || matchesScheduleRule n) with
    | some m =>
        show (if matchesWebhookRule m = true then "Webhook" else "Scheduled") ≠ "Complex"
        split_ifs <;> decide
    | none =>
        show (if nodes.any matchesOtherTriggerRule = true then "Webhook" else "Manual") ≠
          "Complex"
        split_ifs <;> decide
  have hsnd : (analyzeNodes nodes).2 = (nodes.foldl analyzeStep ("Manual", [])).2 :=
    (analyzeNodes_snd nodes).trans (foldl_analyzeStep_snd nodes "Manual" []).symm
  rw [hsnd, analyzeNodes_eq]
  by_cases hcond : 10 < nodes.length ∧ 3 < (nodes.foldl analyzeStep ("Manual", [])).2.length
  · rw [if_pos hcond]
    exact ⟨by simpa using hcond, fun hneg => absurd hcond hneg⟩
  · rw [if_neg hcond]
    refine ⟨⟨fun hC => absurd (hchar ▸ hC) hrange, fun hc2 => absurd hc2 hcond⟩,
      fun _ => hchar⟩

/-- Witness for `trigger_scan_characterization`: on the two-node
cron-then-webhook workflow the override does not apply, and the
classification is the last-match result. -/
theorem trigger_scan_characterization_witness :
    (analyzeNodes [cronNode, webhookNode]).1 = lastMatchTrigger [cronNode, webhookNode] :=
  (trigger_scan_characterization [cronNode, webhookNode]).2 (by decide)

/-! ## Name-scan integration extraction (C10) -/

/-- No table value is the literal string None. -/
theorem serviceMappings_no_none_literal : ∀ p ∈ serviceMappings, p.2 ≠ some "None" := by
  decide

/-- A name-scan hit returns a truthy table value that is not the literal
None. -/
theorem nameServiceScan_sound (nn v : String) (h : nameServiceScan nn = some v) :
    v ≠ "" ∧ v ≠ "None" := by
  unfold nameServiceScan at h
  cases hf : serviceMappings.find? (fun p => strContains nn p.1 && optTruthy p.2) with
  | none => rw [hf] at h; cases h
  | some p =>
      rw [hf] at h
      have h2 : p.2 = some v := h
      have hpred := List.find?_some hf
      have hmem := List.mem_of_find?_eq_some hf
      have htr : optTruthy p.2 = true := by
        simp only [Bool.and_eq_true] at hpred
        exact hpred.2
      constructor
      · intro hv
        rw [h2, hv] at htr
        simp [optTruthy] at htr
      · intro hv
        have hnone := serviceMappings_no_none_literal p hmem
        rw [h2, hv] at hnone
        exact hnone rfl

/-- When the name scan hits, the node's integration contribution is
exactly the scanned value, whatever its type identifier yields. -/
theorem intStep_name_hit (ints : List String) (n : WNode) (v : String)
    (hscan : nameServiceScan (pyLower n.name) = some v) :
    intStep ints n = if ints.contains v then ints else ints ++ [v] := by
  obtain ⟨hv1, hv2⟩ := nameServiceScan_sound _ _ hscan
  have hb : (v != "" && v != "None") = true := by simp [hv1, hv2]
  simp only [intStep, hscan]
  simp [hb]

/-- A single integration step never removes an element. -/
theorem intStep_superset (ints : List String) (n : WNode) :
    ∀ s ∈ ints, s ∈ intStep ints n := by
  intro s hs
  simp only [intStep]
  split
  · split
    · split
      · exact hs
      · exact List.mem_append_left _ hs
    · exact hs
  · exact hs

/-- The integration fold never removes an element. -/
theorem foldl_intStep_superset (l : List WNode) :
    ∀ (ints : List String) (s : String), s ∈ ints → s ∈ l.foldl intStep ints := by
  induction l with
  | nil => intro ints s hs; exact hs
  | cons x xs ih => intro ints s hs; exact ih _ s (intStep_superset ints x s hs)

/-- C10 as amended: for every node whose lowercased display name
contains a non-null-valued table key, the FIRST such key in table
declaration order contributes its mapped service to the integration set
(later matching keys are ignored), and that service overrides whatever
the type identifier yielded — the node's contribution is exactly that
service, even for excluded or unrecognized types. -/
theorem name_scan_first_match (nodes : List WNode) (n : WNode) (v : String)
    (hmem : n ∈ nodes) (hscan : nameServiceScan (pyLower n.name) = some v) :
    v ∈ (analyzeNodes nodes).2 ∧
    (∀ ints : List String, intStep ints n =
      if ints.contains v then ints else ints ++ [v]) := by
  refine ⟨?_, fun ints => intStep_name_hit ints n v hscan⟩
  rw [analyzeNodes_snd]
  obtain ⟨l1, l2, rfl⟩ := List.append_of_mem hmem
  rw [List.foldl_append, List.foldl_cons]
  apply foldl_intStep_superset
  rw [intStep_name_hit _ n v hscan]
  split_ifs with h
  · simpa using h
  · exact List.mem_append_right _ (List.mem_singleton_self v)

/-- Witness for `name_scan_first_match` on the node whose name mentions
telegram and discord: the first table key wins. -/
theorem name_scan_first_match_witness :
    "Telegram" ∈ (analyzeNodes [twoServiceNode]).2 ∧
    intStep [] twoServiceNode = ["Telegram"] := by
  have h := name_scan_first_match [twoServiceNode] twoServiceNode "Telegram"
    (by decide) (by decide)
  refine ⟨h.1, ?_⟩
  rw [h.2 []]
  decide

/-! ## Diagram characterization (C7) -/

/-- One output slot of the connection loop emits exactly the edge
statements of its resolvable targets. -/
theorem edge_slot_eq (nodes : List WNode) (src : String) (i ports : Nat)
    (slot : List String) (hs : (idOf nodes src).isSome = true) :
    (slot.flatMap (fun t =>
      if (idOf nodes t).isSome then
        ["  " ++ (idOf nodes src).getD "" ++
          (if ports > 1 then " -->|" ++ toString i ++ "| " else " --> ") ++
          (idOf nodes t).getD ""]
      else [])) =
    ((slot.map (fun t => ConnEntry.mk src i ports t)).filter (resolvable nodes)).map
      (edgeStmt nodes) := by
  induction slot with
  | nil => rfl
  | cons t rest ih =>
      cases hres : (idOf nodes t).isSome with
      | true => simp [hres, resolvable, hs, edgeStmt, ih]
      | false => simp [hres, resolvable, ih]

/-- The port loop of one source emits exactly the edge statements of its
resolvable declared connections. -/
theorem edge_ports_eq (nodes : List WNode) (src : String) (ports : Nat)
    (hs : (idOf nodes src).isSome = true) (l : List (Nat × List String)) :
    (l.flatMap (fun q =>
      q.2.flatMap (fun t =>
        if (idOf nodes t).isSome then
          ["  " ++ (idOf nodes src).getD "" ++
            (if ports > 1 then " -->|" ++ toString q.1 ++ "| " else " --> ") ++
            (idOf nodes t).getD ""]
        else []))) =
    ((l.flatMap (fun q => q.2.map (fun t => ConnEntry.mk src q.1 ports t))).filter
      (resolvable nodes)).map (edgeStmt nodes) := by
  induction l with
  | nil => rfl
  | cons q rest ih =>
      simp only [List.flatMap_cons, List.filter_append, List.map_append]
      rw [edge_slot_eq nodes src q.1 ports q.2 hs, ih]

/-- The connection loop of the renderer emits exactly one edge statement
per resolvable declared connection, in declaration order. -/
theorem edgeLinesSrc_eq (nodes : List WNode) (conns : Conns) :
    edgeLinesSrc nodes conns =
      ((connEntries conns).filter (resolvable nodes)).map (edgeStmt nodes) := by
  induction conns with
  | nil => rfl
  | cons p rest ih =>
      simp only [edgeLinesSrc, connEntries, List.flatMap_cons, List.filter_append,
        List.map_append] at ih ⊢
      by_cases hs : (idOf nodes p.1).isSome = true
      · rw [if_pos hs, ih, edge_ports_eq nodes p.1 p.2.length hs p.2.enum]
      · rw [if_neg hs, ih]
        have hs2 : (idOf nodes p.1).isSome = false := by
          cases hv : (idOf nodes p.1).isSome with
          | true => exact absurd hv hs
          | false => rfl
        have hall : (p.2.enum.flatMap
            (fun q => q.2.map (fun t => ConnEntry.mk p.1 q.1 p.2.length t))).filter
            (resolvable nodes) = [] := by
          rw [List.filter_eq_nil_iff]
          intro e he
          obtain ⟨q, hq, he2⟩ := List.mem_flatMap.mp he
          obtain ⟨t, ht, rfl⟩ := List.mem_map.mp he2
          simp [resolvable, hs2]
        rw [hall]
        rfl

/-- Auxiliary: a flat map whose blocks all have two lines doubles the
length. -/
theorem flatMap_pair_length {α : Type} (f : α → List String)
    (hf : ∀ x, (f x).length = 2) (l : List α) :
    (l.flatMap f).length = 2 * l.length := by
  induction l with
  | nil => rfl
  | cons x xs ih =>
      simp only [List.flatMap_cons, List.length_append, ih, hf x, List.length_cons]
      omega

/-- C7: the rendered line list is the connection-free rendering (header
plus exactly the two per-node statements for every node of the input
array, connections never suppress any of them) followed by one edge
statement per declared main connection whose source and target names
both exist among the rendered nodes — a connection with a missing
endpoint contributes no edge. -/
theorem diagram_nodes_and_edges (nodes : List WNode) (conns : Conns) :
    mermaidLines nodes conns =
      mermaidLines nodes [] ++
        ((connEntries conns).filter (resolvable nodes)).map (edgeStmt nodes) ∧
    mermaidLines nodes [] = "graph TD" :: nodes.flatMap (nodeBlock nodes) ∧
    (nodes.flatMap (nodeBlock nodes)).length = 2 * nodes.length := by
  refine ⟨?_, ?_, ?_⟩
  · simp only [mermaidLines, edgeLinesSrc_eq]
    show "graph TD" :: (nodes.flatMap (nodeBlock nodes) ++ _) =
      ("graph TD" :: (nodes.flatMap (nodeBlock nodes) ++ edgeLinesSrc nodes [])) ++ _
    simp [edgeLinesSrc]
  · simp [mermaidLines, edgeLinesSrc]
  · exact flatMap_pair_length (nodeBlock nodes) (fun x => rfl) nodes

/-! ## Search and pagination (C5) -/

/-- Ordered insertion adds one element. -/
theorem length_insertOrd {α : Type} (le : α → α → Bool) (x : α) (l : List α) :
    (insertOrd le x l).length = l.length + 1 := by
  induction l with
  | nil => rfl
  | cons y ys ih =>
      simp only [insertOrd]
      split_ifs <;> simp [ih]

/-- The ORDER BY model is a permutation in particular in length. -/
theorem length_sortOrd {α : Type} (le : α → α → Bool) (l : List α) :
    (sortOrd le l).length = l.length := by
  induction l with
  | nil => rfl
  | cons x xs ih => simp [sortOrd, length_insertOrd, ih]

/-- The ceiling-division computed at the API boundary is the rational
ceiling. -/
theorem pagesOf_eq_ceil (t p : Nat) (hp : 0 < p) :
    (pagesOf t p : ℤ) = ⌈(t : ℚ) / (p : ℚ)⌉ := by
  obtain ⟨q, hq⟩ : ∃ q, pagesOf t p = q := ⟨_, rfl⟩
  obtain ⟨r, hr⟩ : ∃ r, (t + p - 1) % p = r := ⟨_, rfl⟩
  have key : p * q + r = t + p - 1 := by
    rw [← hq, ← hr]; exact Nat.div_add_mod _ _
  have hrlt : r < p := by rw [← hr]; exact Nat.mod_lt _ hp
  have hzkey : (p : ℤ) * q + r = (t : ℤ) + p - 1 := by
    have h2 : ((p * q + r : ℕ) : ℤ) = ((t + p - 1 : ℕ) : ℤ) := by exact_mod_cast key
    have h3 : ((t + p - 1 : ℕ) : ℤ) = (t : ℤ) + p - 1 := by omega
    rw [h3] at h2
    push_cast at h2
    exact h2
  have hr2 : (r : ℤ) ≤ (p : ℤ) - 1 := by omega
  have hr0 : (0 : ℤ) ≤ (r : ℤ) := by omega
  have hqp : (t : ℤ) ≤ (q : ℤ) * p := by nlinarith [hzkey]
  have hlow : (q : ℤ) * p - p < t := by nlinarith [hzkey]
  rw [hq]
  have hppos : (0 : ℚ) < (p : ℚ) := by exact_mod_cast hp
  symm
  rw [Int.ceil_eq_iff]
  constructor
  · show ((q : ℤ) : ℚ) - 1 < (t : ℚ) / (p : ℚ)
    rw [lt_div_iff₀ hppos]
    have hcast : (((q : ℤ) : ℚ) - 1) * (p : ℚ) = (((q : ℤ) * p - p : ℤ) : ℚ) := by
      push_cast; ring
    rw [hcast]
    exact_mod_cast hlow
  · show (t : ℚ) / (p : ℚ) ≤ ((q : ℤ) : ℚ)
    rw [div_le_iff₀ hppos]
    have hcast : ((q : ℤ) : ℚ) * (p : ℚ) = (((q : ℤ) * p : ℤ) : ℚ) := by push_cast; ring
    rw [hcast]
    exact_mod_cast hqp

/-- C5: the reported total is the size of the filtered candidate set
before pagination; an offset at or beyond the total yields an empty
page with the same total; and the page count reported at the search
boundary is the rational ceiling of total over page size. -/
theorem search_total_and_pagination (rows : List SRow) (useQuery : Bool)
    (matchQ : SRow → Bool) (rank : SRow → Int) (trigF compF : String)
    (activeOnly : Bool) (limit offset : Nat) :
    (searchWorkflows rows useQuery matchQ rank trigF compF activeOnly limit offset).2 =
      (candidatesOf rows useQuery matchQ trigF compF activeOnly).length ∧
    ((searchWorkflows rows useQuery matchQ rank trigF compF activeOnly limit offset).2 ≤
        offset →
      (searchWorkflows rows useQuery matchQ rank trigF compF activeOnly limit offset).1 =
        []) ∧
    (∀ perPage : Nat, 0 < perPage →
      (pagesOf
          (searchWorkflows rows useQuery matchQ rank trigF compF activeOnly limit offset).2
          perPage : ℤ) =
        ⌈((searchWorkflows rows useQuery matchQ rank trigF compF activeOnly limit
              offset).2 : ℚ) / (perPage : ℚ)⌉) := by
  refine ⟨rfl, ?_, fun perPage hpp => pagesOf_eq_ceil _ perPage hpp⟩
  intro hoff
  simp only [searchWorkflows] at hoff ⊢
  have hlen : (if useQuery then
        sortOrd (fun a b => decide (rank a ≤ rank b))
          (candidatesOf rows useQuery matchQ trigF compF activeOnly)
      else
        sortOrd (fun a b => decide (b.analyzedAt ≤ a.analyzedAt))
          (candidatesOf rows useQuery matchQ trigF compF activeOnly)).length =
      (candidatesOf rows useQuery matchQ trigF compF activeOnly).length := by
    split_ifs <;> exact length_sortOrd _ _
  rw [List.drop_eq_nil_of_le (by rw [hlen]; exact hoff)]
  exact List.take_nil

/-- Witness for `search_total_and_pagination`: two candidates, offset 5
past the total gives an empty page, and the page count at page size 2
is the rational ceiling. -/
theorem search_total_and_pagination_witness :
    (searchWorkflows [searchRowA, searchRowB] false (fun _ => true) (fun _ => 0)
        "all" "all" false 50 5).1 = [] ∧
    (pagesOf (searchWorkflows [searchRowA, searchRowB] false (fun _ => true)
        (fun _ => 0) "all" "all" false 50 5).2 2 : ℤ) =
      ⌈((searchWorkflows [searchRowA, searchRowB] false (fun _ => true) (fun _ => 0)
            "all" "all" false 50 5).2 : ℚ) / (2 : ℚ)⌉ := by
  have h := search_total_and_pagination [searchRowA, searchRowB] false (fun _ => true)
    (fun _ => 0) "all" "all" false 50 5
  exact ⟨h.2.1 (by decide), h.2.2 2 (by decide)⟩

/-- The empty store satisfies the invariant. -/
theorem dbInv_init : dbInv dbInit := by
  refine ⟨?_, ?_, ?_, ?_, ?_⟩ <;> simp [dbInit]

/-- One upsert preserves the invariant. -/
theorem dbInv_upsert (st : DbState) (w : WRecord) (time : Nat) (h : dbInv st) :
    dbInv (dbUpsert st w time) := by
  obtain ⟨h1, h2, h3, h4, h5⟩ := h
  refine ⟨?_, ?_, ?_, ?_, ?_⟩
  · intro r hr
    simp only [dbUpsert, List.mem_append] at hr
    rcases hr with hr | hr
    · have := h1 r (List.mem_of_mem_filter hr)
      simp only [dbUpsert]
      omega
    · simp only [List.mem_singleton] at hr
      subst hr
      simp [dbUpsert]
  · simp only [dbUpsert, List.map_append]
    rw [List.nodup_append]
    refine ⟨List.Nodup.sublist ((List.filter_sublist _).map DbRow.id) h2, by simp, ?_⟩
    intro a ha hb
    simp only [List.map_cons, List.map_nil, List.mem_singleton] at hb
    subst hb
    obtain ⟨rrow, hrr, hid⟩ := List.mem_map.mp ha
    have := h1 rrow (List.mem_of_mem_filter hrr)
    omega
  · simp only [dbUpsert, List.map_append]
    rw [List.nodup_append]
    refine ⟨List.Nodup.sublist ((List.filter_sublist _).map _) h3, by simp, ?_⟩
    intro a ha hb
    simp only [List.map_cons, List.map_nil, List.mem_singleton] at hb
    obtain ⟨rrow, hrr, hfn⟩ := List.mem_map.mp ha
    have hne := (List.mem_filter.mp hrr).2
    simp only [bne_iff_ne, ne_eq] at hne
    exact hne (hfn ▸ hb)
  · intro e he
    simp only [dbUpsert, List.mem_append, List.mem_singleton] at he
    rcases he with he | he
    · have := h4 e he
      simp only [dbUpsert]
      omega
    · subst he
      simp [dbUpsert, entryOf]
  · intro r hr
    simp only [dbUpsert, List.mem_append, List.mem_singleton] at hr
    simp only [dbUpsert, List.filter_append]
    rcases hr with hr | hr
    · have hrm := List.mem_of_mem_filter hr
      have hlt := h1 r hrm
      have hnew : (List.filter (fun e => e.rowid == r.id)
          [entryOf { id := st.nextId, payload := w, analyzedAt := time }]) = [] := by
        simp only [List.filter_cons, List.filter_nil]
        have : (st.nextId == r.id) = false := by
          simp only [beq_eq_false_iff_ne, ne_eq]
          omega
        simp [entryOf, this]
      rw [h5 r hrm, hnew]
      simp
    · subst hr
      have hold : (List.filter
          (fun e => e.rowid == ({ id := st.nextId, payload := w, analyzedAt := time } :
            DbRow).id) st.fts) = [] := by
        rw [List.filter_eq_nil_iff]
        intro e he
        have := h4 e he
        simp only [beq_iff_eq]
        intro hc
        omega
      rw [hold]
      simp [entryOf]

/-- The invariant holds in every state reachable by a sequence of
upserts from the empty store. -/
theorem dbInv_applyUpserts (ws : List (WRecord × Nat)) : dbInv (applyUpserts ws) := by
  have gen : ∀ (l : List (WRecord × Nat)) (st : DbState), dbInv st →
      dbInv (l.foldl (fun s p => dbUpsert s p.1 p.2) st) := by
    intro l
    induction l with
    | nil => intro st h; exact h
    | cons x xs ih => intro st h; exact ih _ (dbInv_upsert st x.1 x.2 h)
  exact gen ws dbInit dbInv_init

/-- In a list of rows with unique ids, the join lookup finds exactly the
row itself. -/
theorem find?_id_of_nodup (l : List DbRow) (hnd : (l.map DbRow.id).Nodup)
    (r : DbRow) (hr : r ∈ l) : l.find? (fun w => w.id == r.id) = some r := by
  induction l with
  | nil => cases hr
  | cons w ws ih =>
      simp only [List.map_cons, List.nodup_cons] at hnd
      rcases List.mem_cons.mp hr with rfl | hr2
      · exact List.find?_cons_of_pos _ (by simp)
      · have hne : w.id ≠ r.id := fun he => hnd.1 (he ▸ List.mem_map_of_mem DbRow.id hr2)
        rw [List.find?_cons_of_neg _ (by simp [hne])]
        exact ih hnd.2 hr2

/-- C2 counterexample: after upserting the same filename twice, the text
index still holds an entry carrying the prior version's description —
the record's index entry is not replaced together with the record; the
stale entry merely references a rowid no live record has. -/
theorem index_stale_entry_counterexample :
    (applyUpserts [(sampleRecord "first version", 0),
        (sampleRecord "second version", 1)]).workflows.map
      (fun w => w.payload.description) = ["second version"] ∧
    (∃ e ∈ (applyUpserts [(sampleRecord "first version", 0),
        (sampleRecord "second version", 1)]).fts,
      e.description = "first version" ∧
      ∀ w ∈ (applyUpserts [(sampleRecord "first version", 0),
          (sampleRecord "second version", 1)]).workflows, w.id ≠ e.rowid) := by
  decide

/-- C2 as amended: in every state reachable by upserts, each live record
has exactly one index entry carrying its current fields; every index
entry is either the current entry of a live record or a stale entry
whose rowid no live record has (the prior version's entry survives the
REPLACE, orphaned); and the joined FTS query reaches a row exactly when
the row is live and its current entry matches — stale entries are
unreachable through the query. -/
theorem index_pairing_invariant (ws : List (WRecord × Nat)) :
    dbInv (applyUpserts ws) ∧
    (∀ e ∈ (applyUpserts ws).fts,
      (∃ w ∈ (applyUpserts ws).workflows, e = entryOf w) ∨
      (∀ w ∈ (applyUpserts ws).workflows, w.id ≠ e.rowid)) ∧
    (∀ (q : FtsEntry → Bool) (r : DbRow),
      r ∈ ftsQueryJoin (applyUpserts ws) q ↔
        r ∈ (applyUpserts ws).workflows ∧ q (entryOf r) = true) := by
  obtain ⟨h1, h2, h3, h4, h5⟩ := dbInv_applyUpserts ws
  refine ⟨dbInv_applyUpserts ws, ?_, ?_⟩
  · intro e he
    by_cases hex : ∃ w ∈ (applyUpserts ws).workflows, w.id = e.rowid
    · obtain ⟨w, hw, hid⟩ := hex
      left
      refine ⟨w, hw, ?_⟩
      have hmem : e ∈ (applyUpserts ws).fts.filter (fun e2 => e2.rowid == w.id) :=
        List.mem_filter.mpr ⟨he, by simp [hid]⟩
      rw [h5 w hw] at hmem
      simpa using hmem
    · right
      intro w hw hid
      exact hex ⟨w, hw, hid⟩
  · intro q r
    constructor
    · intro hr
      obtain ⟨e, he, hfind⟩ := List.mem_filterMap.mp hr
      have hrm := List.mem_of_find?_eq_some hfind
      have hid : r.id = e.rowid := by simpa using List.find?_some hfind
      have hef : e ∈ (applyUpserts ws).fts := (List.mem_filter.mp he).1
      have hq : q e = true := (List.mem_filter.mp he).2
      have hmem : e ∈ (applyUpserts ws).fts.filter (fun e2 => e2.rowid == r.id) :=
        List.mem_filter.mpr ⟨hef, by simp [hid]⟩
      rw [h5 r hrm] at hmem
      have he2 : e = entryOf r := by simpa using hmem
      exact ⟨hrm, he2 ▸ hq⟩
    · rintro ⟨hrm, hq⟩
      have hent : entryOf r ∈ (applyUpserts ws).fts := by
        have hmem : entryOf r ∈ (applyUpserts ws).fts.filter
            (fun e2 => e2.rowid == r.id) := by
          rw [h5 r hrm]; simp
        exact (List.mem_filter.mp hmem).1
      apply List.mem_filterMap.mpr
      refine ⟨entryOf r, List.mem_filter.mpr ⟨hent, hq⟩, ?_⟩
      exact find?_id_of_nodup _ h2 r hrm

/-- Witness for `index_pairing_invariant`: the single indexed record is
reachable through the joined query. -/
theorem index_pairing_invariant_witness :
    ({ id := 1, payload := sampleRecord "first version", analyzedAt := 0 } : DbRow) ∈
      ftsQueryJoin (applyUpserts [(sampleRecord "first version", 0)]) (fun _ => true) :=
  ((index_pairing_invariant [(sampleRecord "first version", 0)]).2.2 (fun _ => true)
      _).mpr ⟨by decide, rfl⟩

/-- Unfolding equation of the fuelled traversal. -/
theorem traverseAux_succ (nodes : List WNode) (conns : Conns) (f : Nat) (cur : WNode)
    (steps : List WStep) (visited : List String) :
    traverseAux nodes conns (f + 1) cur (steps, visited) =
      if visited.contains cur.id then (steps, visited)
      else
        (nextNodes nodes conns cur.name).foldl
          (fun a2 nx => traverseAux nodes conns f nx a2)
          (pushStep steps cur, visited ++ [cur.id]) := rfl

/-- Ids are preserved by the in-place upsert of the node map. -/
theorem upsertById_map_id (acc : List WNode) (n : WNode) :
    (upsertById acc n).map (fun m => m.id) =
      if acc.any (fun m => m.id == n.id) then acc.map (fun m => m.id)
      else acc.map (fun m => m.id) ++ [n.id] := by
  simp only [upsertById]
  split_ifs with h
  · rw [List.map_map]
    apply List.map_congr_left
    intro m _
    simp only [Function.comp]
    split_ifs with h2
    · exact (beq_iff_eq.mp h2).symm
    · rfl
  · simp

/-- Ids only accumulate along the node-map fold. -/
theorem mem_map_id_foldl_upsert (l : List WNode) :
    ∀ (acc : List WNode) (i : String), i ∈ acc.map (fun m => m.id) →
      i ∈ (l.foldl upsertById acc).map (fun m => m.id) := by
  induction l with
  | nil => intro acc i hi; exact hi
  | cons x xs ih =>
      intro acc i hi
      apply ih
      rw [upsertById_map_id]
      split_ifs
      · exact hi
      · exact List.mem_append_left _ hi

/-- Every node's id appears among the node-map ids. -/
theorem id_mem_nodeMapValues (nodes : List WNode) (n : WNode) (hn : n ∈ nodes) :
    n.id ∈ (nodeMapValues nodes).map (fun m => m.id) := by
  have gen : ∀ (l : List WNode) (acc : List WNode), n ∈ l →
      n.id ∈ (l.foldl upsertById acc).map (fun m => m.id) := by
    intro l
    induction l with
    | nil => intro acc h; cases h
    | cons x xs ih =>
        intro acc h
        rcases List.mem_cons.mp h with rfl | h2
        · rw [List.foldl_cons]
          apply mem_map_id_foldl_upsert xs (upsertById acc n)
          rw [upsertById_map_id]
          split_ifs with hany
          · obtain ⟨m, hm, hmx⟩ := List.any_eq_true.mp hany
            have hmeq : m.id = n.id := by simpa using hmx
            exact hmeq ▸ List.mem_map_of_mem _ hm
          · exact List.mem_append_right _ (by simp)
        · exact ih _ h2
  exact gen nodes [] hn

/-- Successors resolved by the traversal are node-map values. -/
theorem nextNodes_mem (nodes : List WNode) (conns : Conns) (name : String) :
    ∀ x ∈ nextNodes nodes conns name, x ∈ nodeMapValues nodes := by
  intro x hx
  simp only [nextNodes] at hx
  cases hc : conns.find? (fun p => p.1 == name) with
  | none => rw [hc] at hx; cases hx
  | some p =>
      rw [hc] at hx
      obtain ⟨t, _, hfind⟩ := List.mem_filterMap.mp hx
      exact List.mem_of_find?_eq_some hfind

/-- Growing the visited list never increases the measure numerator. -/
theorem filter_notmem_append_le (ids v ext : List String) :
    ((ids.filter (fun i => decide (i ∉ v ++ ext))).length ≤
      (ids.filter (fun i => decide (i ∉ v))).length) := by
  induction ids with
  | nil => exact Nat.le_refl _
  | cons a rest ih =>
      simp only [List.filter_cons]
      by_cases h1 : a ∈ v
      · have e1 : (decide (a ∉ v ++ ext)) = false := by
          simp [List.mem_append_left _ h1]
        have e2 : (decide (a ∉ v)) = false := by simp [h1]
        simp only [e1, e2, if_false]
        exact ih
      · have e2 : (decide (a ∉ v)) = true := by simpa using h1
        by_cases h3 : a ∈ v ++ ext
        · have e1 : (decide (a ∉ v ++ ext)) = false := by simp [h3]
          simp only [e1, e2, if_false, if_true]
          exact Nat.le_succ_of_le ih
        · have e1 : (decide (a ∉ v ++ ext)) = true := by simpa using h3
          simp only [e1, e2, if_true, List.length_cons]
          omega

/-- Visiting a counted id strictly shrinks the measure numerator. -/
theorem filter_notmem_append_lt (ids : List String) (v : List String) (c : String)
    (hc : c ∈ ids) (hcv : c ∉ v) :
    ((ids.filter (fun i => decide (i ∉ v ++ [c]))).length <
      (ids.filter (fun i => decide (i ∉ v))).length) := by
  induction ids with
  | nil => cases hc
  | cons a rest ih =>
      simp only [List.filter_cons]
      rcases List.mem_cons.mp hc with rfl | hcr
      · have e1 : (decide (c ∉ v ++ [c])) = false := by simp
        have e2 : (decide (c ∉ v)) = true := by simpa using hcv
        simp only [e1, e2, if_false, if_true, List.length_cons]
        exact Nat.lt_succ_of_le (filter_notmem_append_le rest v [c])
      · by_cases hav : a ∈ v
        · have e1 : (decide (a ∉ v ++ [c])) = false := by
            simp [List.mem_append_left _ hav]
          have e2 : (decide (a ∉ v)) = false := by simp [hav]
          simp only [e1, e2, if_false]
          exact ih hcr
        · have e2 : (decide (a ∉ v)) = true := by simpa using hav
          by_cases hac : a ∈ v ++ [c]
          · have e1 : (decide (a ∉ v ++ [c])) = false := by simp [hac]
            simp only [e1, e2, if_false, if_true, List.length_cons]
            exact Nat.lt_succ_of_lt (ih hcr)
          · have e1 : (decide (a ∉ v ++ [c])) = true := by simpa using hac
            simp only [e1, e2, if_true, List.length_cons]
            exact Nat.succ_lt_succ (ih hcr)

/-- An unvisited counted id makes the measure positive. -/
theorem filter_notmem_pos (ids v : List String) (c : String) (hc : c ∈ ids)
    (hcv : c ∉ v) : 0 < (ids.filter (fun i => decide (i ∉ v))).length := by
  have hm : c ∈ ids.filter (fun i => decide (i ∉ v)) :=
    List.mem_filter.mpr ⟨hc, by simpa using hcv⟩
  exact List.length_pos.mpr (List.ne_nil_of_mem hm)

/-- The measure never grows as the visited list extends. -/
theorem unvisitedCount_append_le (nodes : List WNode) (v ext : List String) :
    unvisitedCount nodes (v ++ ext) ≤ unvisitedCount nodes v :=
  filter_notmem_append_le _ v ext

/-- Visiting a fresh node-map id strictly decreases the measure. -/
theorem unvisitedCount_lt (nodes : List WNode) (v : List String) (c : String)
    (hc : c ∈ (nodeMapValues nodes).map (fun m => m.id)) (hcv : c ∉ v) :
    unvisitedCount nodes (v ++ [c]) < unvisitedCount nodes v :=
  filter_notmem_append_lt _ v c hc hcv

/-- A fresh node-map id keeps the measure positive. -/
theorem unvisitedCount_pos (nodes : List WNode) (v : List String) (c : String)
    (hc : c ∈ (nodeMapValues nodes).map (fun m => m.id)) (hcv : c ∉ v) :
    0 < unvisitedCount nodes v :=
  filter_notmem_pos _ v c hc hcv

/-- The visited list only ever grows, by appending, along a traversal. -/
theorem traverseAux_visited_extends (nodes : List WNode) (conns : Conns) :
    ∀ (fuel : Nat) (cur : WNode) (acc : List WStep × List String),
      ∃ ext, (traverseAux nodes conns fuel cur acc).2 = acc.2 ++ ext := by
  intro fuel
  induction fuel with
  | zero => intro cur acc; exact ⟨[], by simp [traverseAux]⟩
  | succ f ih =>
      intro cur acc
      obtain ⟨steps, visited⟩ := acc
      by_cases hv : visited.contains cur.id = true
      · exact ⟨[], by rw [traverseAux_succ, if_pos hv]; simp⟩
      · have foldlem : ∀ (l : List WNode) (a : List WStep × List String),
            ∃ ext, ((l.foldl (fun a2 nx => traverseAux nodes conns f nx a2) a).2 =
              a.2 ++ ext) := by
          intro l
          induction l with
          | nil => intro a; exact ⟨[], by simp⟩
          | cons x xs ihl =>
              intro a
              obtain ⟨e1, h1⟩ := ih x a
              obtain ⟨e2, h2⟩ := ihl (traverseAux nodes conns f x a)
              exact ⟨e1 ++ e2, by rw [List.foldl_cons, h2, h1, List.append_assoc]⟩
        obtain ⟨ext, hext⟩ := foldlem (nextNodes nodes conns cur.name)
          (pushStep steps cur, visited ++ [cur.id])
        refine ⟨[cur.id] ++ ext, ?_⟩
        rw [traverseAux_succ, if_neg hv, hext]
        simp

/-- Stabilization: once the fuel exceeds the number of unvisited node
ids, the traversal result no longer depends on the fuel. -/
theorem traverseAux_stable (nodes : List WNode) (conns : Conns) :
    ∀ (N : Nat) (visited : List String), unvisitedCount nodes visited ≤ N →
    ∀ (cur : WNode), cur.id ∈ (nodeMapValues nodes).map (fun m => m.id) →
    ∀ (steps : List WStep) (f1 f2 : Nat), N < f1 → N < f2 →
      traverseAux nodes conns f1 cur (steps, visited) =
        traverseAux nodes conns f2 cur (steps, visited) := by
  intro N
  induction N with
  | zero =>
      intro visited hU cur hcur steps f1 f2 h1 h2
      cases f1 with
      | zero => omega
      | succ g1 =>
          cases f2 with
          | zero => omega
          | succ g2 =>
              by_cases hv : visited.contains cur.id = true
              · rw [traverseAux_succ, traverseAux_succ, if_pos hv, if_pos hv]
              · exfalso
                have hnm : cur.id ∉ visited := by simpa using hv
                have hpos := unvisitedCount_pos nodes visited cur.id hcur hnm
                omega
  | succ N ih =>
      intro visited hU cur hcur steps f1 f2 h1 h2
      cases f1 with
      | zero => omega
      | succ g1 =>
          cases f2 with
          | zero => omega
          | succ g2 =>
              by_cases hv : visited.contains cur.id = true
              · rw [traverseAux_succ, traverseAux_succ, if_pos hv, if_pos hv]
              · rw [traverseAux_succ, traverseAux_succ, if_neg hv, if_neg hv]
                have hnm : cur.id ∉ visited := by simpa using hv
                have hUdec : unvisitedCount nodes (visited ++ [cur.id]) ≤ N := by
                  have := unvisitedCount_lt nodes visited cur.id hcur hnm
                  omega
                have foldeq : ∀ (l : List WNode),
                    (∀ x ∈ l, x.id ∈ (nodeMapValues nodes).map (fun m => m.id)) →
                    ∀ (a : List WStep × List String),
                    (∃ pre, a.2 = (visited ++ [cur.id]) ++ pre) →
                    l.foldl (fun a2 nx => traverseAux nodes conns g1 nx a2) a =
                      l.foldl (fun a2 nx => traverseAux nodes conns g2 nx a2) a := by
                  intro l
                  induction l with
                  | nil => intro _ a _; rfl
                  | cons x xs ihl =>
                      intro hxs a hpre
                      obtain ⟨pre, hpre⟩ := hpre
                      obtain ⟨st2, vis2⟩ := a
                      simp only at hpre
                      have hUa : unvisitedCount nodes vis2 ≤ N := by
                        rw [hpre]
                        exact le_trans (unvisitedCount_append_le nodes _ pre) hUdec
                      have hx := ih vis2 hUa x (hxs x (by simp)) st2 g1 g2
                        (by omega) (by omega)
                      rw [List.foldl_cons, List.foldl_cons, hx]
                      apply ihl (fun y hy => hxs y (by simp [hy]))
                      obtain ⟨ext, hext⟩ :=
                        traverseAux_visited_extends nodes conns g2 x (st2, vis2)
                      exact ⟨pre ++ ext, by rw [hext, hpre, List.append_assoc]⟩
                apply foldeq
                · intro x hx
                  exact List.mem_map_of_mem _ (nextNodes_mem nodes conns cur.name x hx)
                · exact ⟨[], by simp⟩

/-- Along a traversal, emitted step ids stay duplicate-free and inside
the visited set. -/
theorem traverseAux_nodup (nodes : List WNode) (conns : Conns) :
    ∀ (fuel : Nat) (cur : WNode) (steps : List WStep) (visited : List String),
    ((steps.map (fun s => s.id)).Nodup) → (∀ s ∈ steps, s.id ∈ visited) →
    (((traverseAux nodes conns fuel cur (steps, visited)).1.map
        (fun s => s.id)).Nodup ∧
      ∀ s ∈ (traverseAux nodes conns fuel cur (steps, visited)).1,
        s.id ∈ (traverseAux nodes conns fuel cur (steps, visited)).2) := by
  intro fuel
  induction fuel with
  | zero => intro cur steps visited h1 h2; exact ⟨h1, h2⟩
  | succ f ih =>
      intro cur steps visited h1 h2
      by_cases hv : visited.contains cur.id = true
      · rw [traverseAux_succ, if_pos hv]; exact ⟨h1, h2⟩
      · rw [traverseAux_succ, if_neg hv]
        have hnm : cur.id ∉ visited := by simpa using hv
        have hsteps2 : ((pushStep steps cur).map (fun s => s.id)).Nodup := by
          unfold pushStep
          split_ifs
          · rw [List.map_append, List.nodup_append]
            refine ⟨h1, by simp, ?_⟩
            intro a ha hb
            simp only [stepOf, List.map_cons, List.map_nil, List.mem_singleton] at hb
            obtain ⟨s, hs, hsid⟩ := List.mem_map.mp ha
            apply hnm
            rw [← hb, ← hsid]
            exact h2 s hs
          · exact h1
        have hsub2 : ∀ s ∈ pushStep steps cur, s.id ∈ visited ++ [cur.id] := by
          unfold pushStep
          split_ifs
          · intro s hs
            rcases List.mem_append.mp hs with hs | hs
            · exact List.mem_append_left _ (h2 s hs)
            · simp only [List.mem_singleton] at hs
              subst hs
              simp [stepOf]
          · intro s hs
            exact List.mem_append_left _ (h2 s hs)
        have foldpres : ∀ (l : List WNode) (a : List WStep × List String),
            ((a.1.map (fun s => s.id)).Nodup ∧ ∀ s ∈ a.1, s.id ∈ a.2) →
            (((l.foldl (fun a2 nx => traverseAux nodes conns f nx a2) a).1.map
                (fun s => s.id)).Nodup ∧
              ∀ s ∈ (l.foldl (fun a2 nx => traverseAux nodes conns f nx a2) a).1,
                s.id ∈ (l.foldl (fun a2 nx => traverseAux nodes conns f nx a2) a).2) := by
          intro l
          induction l with
          | nil => intro a h; exact h
          | cons x xs ihl =>
              intro a h
              rw [List.foldl_cons]
              obtain ⟨st2, vis2⟩ := a
              exact ihl _ (ih x st2 vis2 h.1 h.2)
        exact foldpres _ _ ⟨hsteps2, hsub2⟩

/-- The start-node search fails only on the empty node list. -/
theorem findStartNode_none (nodes : List WNode) (conns : Conns)
    (h : findStartNode nodes conns = none) : nodes = [] := by
  unfold findStartNode at h
  cases h1 : nodes.find? isTriggerish with
  | some n => rw [h1] at h; cases h
  | none =>
      rw [h1] at h
      cases h2 : nodes.find? (fun n => !((connTargets conns).contains n.name)) with
      | some n => rw [h2] at h; cases h
      | none =>
          rw [h2] at h
          cases nodes with
          | nil => rfl
          | cons a l => cases h

/-- C9: for every node list and every connections mapping — cyclic and
re-converging graphs included — the fuelled traversal stabilizes once
the fuel reaches `fuelOf` (the recursion terminates), and the generated
step narrative contains at most one step per node id. -/
theorem traversal_terminates_and_dedups (nodes : List WNode) (conns : Conns) :
    (∀ (start : WNode), start ∈ nodes → ∀ (fuel : Nat), fuelOf nodes ≤ fuel →
      traverseAux nodes conns fuel start ([], []) =
        traverseAux nodes conns (fuelOf nodes) start ([], [])) ∧
    ((generateStepsFromStructure nodes conns).map (fun s => s.id)).Nodup := by
  constructor
  · intro start hs fuel hf
    have hcur : start.id ∈ (nodeMapValues nodes).map (fun m => m.id) :=
      id_mem_nodeMapValues nodes start hs
    have hU : unvisitedCount nodes [] ≤ (nodeMapValues nodes).length := by
      unfold unvisitedCount
      have hfull : (((nodeMapValues nodes).map (fun m => m.id)).filter
          (fun i => decide (i ∉ ([] : List String)))) =
          (nodeMapValues nodes).map (fun m => m.id) := by
        apply List.filter_eq_self.mpr
        intro a _
        simp
      rw [hfull, List.length_map]
    apply traverseAux_stable nodes conns ((nodeMapValues nodes).length) [] hU start hcur
      [] fuel (fuelOf nodes) ?_ ?_
    · unfold fuelOf at hf; omega
    · unfold fuelOf; omega
  · unfold generateStepsFromStructure
    by_cases hne : nodes.isEmpty = true
    · simp [hne]
    · rw [if_neg hne]
      cases hfind : findStartNode nodes conns with
      | none =>
          exfalso
          have := findStartNode_none nodes conns hfind
          rw [this] at hne
          exact hne rfl
      | some start =>
          exact (traverseAux_nodup nodes conns (fuelOf nodes) start [] []
            (by simp) (by simp)).1

/-- Witness for `traversal_terminates_and_dedups` on a concrete cyclic
graph with surplus fuel. -/
theorem traversal_terminates_and_dedups_witness :
    traverseAux [cycleNodeA, cycleNodeB] cycleConns
        (fuelOf [cycleNodeA, cycleNodeB] + 5) cycleNodeA ([], []) =
      traverseAux [cycleNodeA, cycleNodeB] cycleConns (fuelOf [cycleNodeA, cycleNodeB])
        cycleNodeA ([], []) ∧
    ((generateStepsFromStructure [cycleNodeA, cycleNodeB] cycleConns).map
        (fun s => s.id)).Nodup :=
  ⟨(traversal_terminates_and_dedups [cycleNodeA, cycleNodeB] cycleConns).1 cycleNodeA
      (by decide) _ (by decide),
    (traversal_terminates_and_dedups [cycleNodeA, cycleNodeB] cycleConns).2⟩
